import Mathlib

/-!
Verification of the shape-scaling data generator (`src/generator.py`,
`core/schemas.py`).  The Python code is embedded shallowly: Python ints
become `ℤ`/`ℕ`, Python floats become `ℚ` (the float expressions in the
code only combine small integers and decimal literals) or `ℝ` for the
trigonometric vertex geometry, Python's `int(...)` truncation becomes
`pyInt`, Python `//` becomes `Int.fdiv`, the allocator's `set` of used
combination keys becomes a duplicate-free `List`, and raising becomes
`Option.none`.
-/

/-- Python `int(x)` truncation toward zero, on exact rationals. -/
def pyInt (q : ℚ) : ℤ :=
  if 0 ≤ q then q.floor else -(-q).floor

/-- The configuration fields of `TaskConfig` consumed by the rendering and
animation code: `image_size = (width, height)`, `margin`, `shape_size`. -/
structure RenderConfig where
  width : ℤ
  height : ℤ
  margin : ℤ
  shapeSize : ℤ
deriving DecidableEq

/-- The defaults from `src/config.py`: `image_size=(512,512)`, `margin=40`,
`shape_size=80`. -/
def defaultRenderConfig : RenderConfig :=
  { width := 512, height := 512, margin := 40, shapeSize := 80 }

/-- Embedding of `TaskGenerator._get_max_shape_size_for_position`. -/
def maxShapeSizeForPosition (cfg : RenderConfig) (x y : ℤ) : ℤ :=
  let spaceLeft := x - cfg.margin
  let spaceRight := cfg.width - x - cfg.margin
  let spaceTop := y - cfg.margin
  let spaceBottom := cfg.height - y - cfg.margin
  let maxRadius := min (min spaceLeft spaceRight) (min spaceTop spaceBottom)
  let safetyMargin := 10
  let maxRadius := max (maxRadius - safetyMargin) 20
  maxRadius * 2

/-- The intermediate `max_radius` of `_get_max_shape_size_for_position`
before the safety inset: the minimum distance from `(x, y)` to the four
margined canvas edges. -/
def minEdgeDistance (cfg : RenderConfig) (x y : ℤ) : ℤ :=
  min (min (x - cfg.margin) (cfg.width - x - cfg.margin))
    (min (y - cfg.margin) (cfg.height - y - cfg.margin))

/-- `answer_x = width - margin - shape_size//2` from
`_create_scaling_morph_frames`. -/
def answerX (cfg : RenderConfig) : ℤ :=
  cfg.width - cfg.margin - Int.fdiv cfg.shapeSize 2

/-- `answer_y = 3*height//4` from `_create_scaling_morph_frames`. -/
def answerY (cfg : RenderConfig) : ℤ :=
  Int.fdiv (3 * cfg.height) 4

/-- `target_size = min(int(shape_size * scale_factor),
max_allowed_size)` from `_create_scaling_morph_frames`. -/
def scalingTargetSize (cfg : RenderConfig) (scaleFactor : ℚ) : ℤ :=
  min (pyInt ((cfg.shapeSize : ℚ) * scaleFactor))
    (maxShapeSizeForPosition cfg (answerX cfg) (answerY cfg))

/-- `scale_progress = i / (num_frames - 1) if num_frames > 1 else 1.0`. -/
def scaleProgress (numFrames i : ℕ) : ℚ :=
  if 1 < numFrames then (i : ℚ) / ((numFrames : ℚ) - 1) else 1

/-- `current_size = int(original_size + (target_size - original_size) *
scale_progress)` with `original_size = shape_size`. -/
def morphCurrentSize (cfg : RenderConfig) (scaleFactor : ℚ) (numFrames i : ℕ) : ℤ :=
  pyInt ((cfg.shapeSize : ℚ) +
    ((scalingTargetSize cfg scaleFactor : ℤ) - (cfg.shapeSize : ℚ)) *
      scaleProgress numFrames i)

/-- Modelled from the spec's wording of the interpolation (`round(...)`
instead of the code's `int(...)` truncation), for comparison with
`morphCurrentSize`. -/
def morphCurrentSizeSpec (cfg : RenderConfig) (scaleFactor : ℚ) (numFrames i : ℕ) : ℤ :=
  ((cfg.shapeSize : ℚ) +
    ((scalingTargetSize cfg scaleFactor : ℤ) - (cfg.shapeSize : ℚ)) *
      scaleProgress numFrames i + 1 / 2).floor

/-- An animation frame, abstracted by its varying content: held frames are
copies of the initial or final layout render; a morph frame is the static
layout plus the answer shape `shape_c` drawn at `(answer_x, answer_y)`
with the interpolated size (the `_draw_base_shape` call at the end of the
morph-frame loop). -/
inductive Frame where
  | firstImage : Frame
  | finalImage : Frame
  | morphFrame (shape : String) (x y size : ℤ) : Frame
deriving DecidableEq

/-- Embedding of `_create_scaling_morph_frames`: one morph frame per loop
index `i in range(num_frames)`. -/
def scalingMorphFrames (cfg : RenderConfig) (shapeC : String) (scaleFactor : ℚ)
    (numFrames : ℕ) : List Frame :=
  (List.range numFrames).map fun i =>
    Frame.morphFrame shapeC (answerX cfg) (answerY cfg)
      (morphCurrentSize cfg scaleFactor numFrames i)

/-- Embedding of `_create_transformation_frames`: `hold_frames` copies of
the initial render, the scaling morph frames, then `hold_frames` copies of
the final render. -/
def transformationFrames (cfg : RenderConfig) (shapeC : String) (scaleFactor : ℚ)
    (holdFrames scaleFrames : ℕ) : List Frame :=
  List.replicate holdFrames Frame.firstImage ++
    scalingMorphFrames cfg shapeC scaleFactor scaleFrames ++
      List.replicate holdFrames Frame.finalImage

/-- A `combination_key = (shape_a, shape_c, scale_factor)` tuple. -/
abbrev CombinationKey := String × String × ℚ

/-- The allocator's configured lists, instance attributes `self.base_shapes`
and `self.scale_factors` of `TaskGenerator`. -/
structure AllocConfig where
  shapes : List String
  factors : List ℚ

/-- `self.base_shapes` from `TaskGenerator.__init__`. -/
def baseShapes : List String :=
  ["square", "triangle", "circle", "diamond", "pentagon", "hexagon",
   "rectangle", "oval", "star", "heart", "cross", "arrow", "trapezoid",
   "rhombus", "octagon", "crescent", "plus", "minus", "L_shape", "T_shape"]

/-- `self.scale_factors` from `TaskGenerator.__init__`. -/
def scaleFactors : List ℚ :=
  [0.35, 0.4, 0.45, 0.5, 0.55, 0.6, 0.65, 0.7, 0.75, 0.8, 0.85, 0.9, 0.95,
   1.05, 1.1, 1.15, 1.2, 1.25, 1.3, 1.35, 1.4, 1.45, 1.5, 1.55, 1.6, 1.65,
   1.7, 1.75, 1.8, 1.85, 1.9, 1.95, 2.0, 2.1, 2.2]

/-- The lists a real `TaskGenerator` instance holds. -/
def defaultAlloc : AllocConfig :=
  { shapes := baseShapes, factors := scaleFactors }

/-- `max_unique_combinations = num_shapes * (num_shapes - 1) *
num_scale_factors` from `_generate_task_data`. -/
def maxUniqueCombinations (cfg : AllocConfig) : ℕ :=
  cfg.shapes.length * (cfg.shapes.length - 1) * cfg.factors.length

/-- The enumeration order of `_generate_systematic_unique_combination`:
`shape_a` outermost, then `shape_c` (skipping `shape_a == shape_c`), then
`scale_factor`, each in the defined list order. -/
def allCombinations (cfg : AllocConfig) : List CombinationKey :=
  cfg.shapes.flatMap fun a =>
    cfg.shapes.flatMap fun c =>
      if a = c then [] else cfg.factors.map fun f => (a, c, f)

/-- A key producible by `random.sample(self.base_shapes, 2)` (two distinct
configured shapes) and `random.choice(self.scale_factors)`. -/
abbrev ValidKey (cfg : AllocConfig) (k : CombinationKey) : Prop :=
  k.1 ∈ cfg.shapes ∧ k.2.1 ∈ cfg.shapes ∧ k.1 ≠ k.2.1 ∧ k.2.2 ∈ cfg.factors

/-- `_generate_systematic_unique_combination`: the first enumerated key not
in `used`; `none` models reaching the final `RuntimeError`. -/
def systematicUniqueCombination (cfg : AllocConfig) (used : List CombinationKey) :
    Option CombinationKey :=
  (allCombinations cfg).find? fun k => !decide (k ∈ used)

/-- The random draws feeding one `_generate_task_data` call: `attempts i`
is the `(shape_a, shape_c, scale_factor)` triple produced by
`random.sample`/`random.choice` at loop iteration `i`; `exhaustedDraw` is
the draw made on the duplicate-allowing exhausted branch. -/
structure DrawOracle where
  attempts : ℕ → CombinationKey
  exhaustedDraw : CombinationKey

/-- `max_attempts = 1000` in `_generate_task_data`. -/
def maxAttempts : ℕ := 1000

/-- The 1000-attempt random loop of `_generate_task_data`: the first drawn
key not already in `used`, if any attempt succeeds. -/
def randomPhase (used : List CombinationKey) (o : DrawOracle) : Option CombinationKey :=
  ((List.range maxAttempts).map o.attempts).find? fun k => !decide (k ∈ used)

/-- One `_generate_task_data` call on used-set `used` (the duplicate-free
list standing for the Python set `self.generated_combinations`): returns
the selected key, the updated used-set, and how many exhaustion notices
the call printed; `none` models the `RuntimeError` raised by the
systematic fallback. -/
def generateTaskData (cfg : AllocConfig) (used : List CombinationKey) (o : DrawOracle) :
    Option (CombinationKey × List CombinationKey × ℕ) :=
  if used.length < maxUniqueCombinations cfg then
    match randomPhase used o with
    | some k => some (k, k :: used, 0)
    | none =>
      match systematicUniqueCombination cfg used with
      | some k => some (k, k :: used, 0)
      | none => none
  else
    some (o.exhaustedDraw, used,
      if used.length = maxUniqueCombinations cfg then 1 else 0)

/-- `n` successive `_generate_task_data` calls starting from used-set
`used0`, call `j` drawing from oracle `os j`: the keys returned in order,
the final used-set, and the total number of exhaustion notices. -/
def runAllocatorFrom (cfg : AllocConfig) (os : ℕ → DrawOracle)
    (used0 : List CombinationKey) :
    ℕ → Option (List CombinationKey × List CombinationKey × ℕ)
  | 0 => some ([], used0, 0)
  | n + 1 =>
    match runAllocatorFrom cfg os used0 n with
    | none => none
    | some (ks, used, w) =>
      match generateTaskData cfg used (os n) with
      | none => none
      | some (k, used2, w2) => some (ks ++ [k], used2, w + w2)

/-- `n` successive calls on a fresh `TaskGenerator` (empty used-set). -/
def runAllocator (cfg : AllocConfig) (os : ℕ → DrawOracle) (n : ℕ) :
    Option (List CombinationKey × List CombinationKey × ℕ) :=
  runAllocatorFrom cfg os [] n

/-- Total exhaustion notices of a run (`0` for a raising run). -/
def noticeCount : Option (List CombinationKey × List CombinationKey × ℕ) → ℕ
  | some (_, _, w) => w
  | none => 0

/-- A fixed possible outcome of `random.sample`/`random.choice`, used to
instantiate oracles on concrete runs. -/
def sampleOracle : DrawOracle :=
  { attempts := fun _ => ("square", "triangle", 2),
    exhaustedDraw := ("square", "triangle", 2) }

/-- Vertex angles of the pentagon branch of `_draw_base_shape`:
`angle = i * 2 * math.pi / 5 - math.pi/2` (the "start from top" offset). -/
noncomputable def pentagonVertexAngle (i : ℕ) : ℝ :=
  i * 2 * Real.pi / 5 - Real.pi / 2

/-- Vertex angles of the hexagon branch of `_draw_base_shape`:
`angle = i * 2 * math.pi / 6` (no offset). -/
noncomputable def hexagonVertexAngle (i : ℕ) : ℝ :=
  i * 2 * Real.pi / 6

/-- Vertex angles of the octagon branch of `_draw_base_shape`:
`angle = i * 2 * math.pi / 8` (no offset). -/
noncomputable def octagonVertexAngle (i : ℕ) : ℝ :=
  i * 2 * Real.pi / 8

/-- One polygon vertex: `(x + half_size*cos(angle), y + half_size*sin(angle))`. -/
noncomputable def polygonVertex (x y h θ : ℝ) : ℝ × ℝ :=
  (x + h * Real.cos θ, y + h * Real.sin θ)

/-- The pentagon vertex list built by `for i in range(5)` in
`_draw_base_shape`. -/
noncomputable def pentagonPoints (x y h : ℝ) : List (ℝ × ℝ) :=
  (List.range 5).map fun i => polygonVertex x y h (pentagonVertexAngle i)

/-- The hexagon vertex list built by `for i in range(6)`. -/
noncomputable def hexagonPoints (x y h : ℝ) : List (ℝ × ℝ) :=
  (List.range 6).map fun i => polygonVertex x y h (hexagonVertexAngle i)

/-- The octagon vertex list built by `for i in range(8)`. -/
noncomputable def octagonPoints (x y h : ℝ) : List (ℝ × ℝ) :=
  (List.range 8).map fun i => polygonVertex x y h (octagonVertexAngle i)

/-- The declared fields of `TaskPair` in `core/schemas.py`, each paired
with whether it has a default value (and so may be omitted at
construction): `final_image` and `goal_text` default to `None`, all other
fields — including `metadata` — are required; no `ground_truth_video`
field is declared. -/
def taskPairFields : List (String × Bool) :=
  [("task_id", false), ("domain", false), ("prompt", false),
   ("first_image", false), ("final_image", true), ("goal_text", true),
   ("metadata", false)]

/-- Pydantic-style construction check for `TaskPair(**kwargs)`: succeeds
iff every field without a default is among the provided keyword names
(unknown keywords are ignored under pydantic's default configuration). -/
def taskPairConstructionOk (kwargs : List String) : Bool :=
  taskPairFields.all fun fd => fd.2 || kwargs.contains fd.1

/-- The keyword names passed to `TaskPair(...)` at the end of
`TaskGenerator.generate_task_pair`. -/
def generateTaskPairKwargs : List String :=
  ["task_id", "domain", "prompt", "first_image", "final_image",
   "ground_truth_video"]

theorem ratFloor_eq_intFloor (q : ℚ) : q.floor = ⌊q⌋ := by
  rw [Rat.floor_def' q, ← Rat.floor_def]

theorem pyInt_eq_floor_of_nonneg (q : ℚ) (h : 0 ≤ q) : pyInt q = ⌊q⌋ := by
  rw [pyInt, if_pos h, ratFloor_eq_intFloor]

theorem pyInt_intCast (n : ℤ) : pyInt (n : ℚ) = n := by
  rcases le_or_lt 0 (n : ℚ) with h | h
  · rw [pyInt_eq_floor_of_nonneg _ h, Int.floor_intCast]
  · rw [pyInt, if_neg (not_le.mpr h), ratFloor_eq_intFloor, ← Int.cast_neg,
      Int.floor_intCast, neg_neg]

theorem maxShapeSizeForPosition_eq (cfg : RenderConfig) (x y : ℤ) :
    maxShapeSizeForPosition cfg x y = max (minEdgeDistance cfg x y - 10) 20 * 2 := rfl

theorem morphCurrentSizeSpec_eq_round (cfg : RenderConfig) (scaleFactor : ℚ)
    (numFrames i : ℕ) :
    morphCurrentSizeSpec cfg scaleFactor numFrames i =
      round ((cfg.shapeSize : ℚ) +
        ((scalingTargetSize cfg scaleFactor : ℤ) - (cfg.shapeSize : ℚ)) *
          scaleProgress numFrames i) := by
  rw [morphCurrentSizeSpec, ratFloor_eq_intFloor, round_eq]

theorem baseShapes_nodup : baseShapes.Nodup := by decide

theorem scaleFactors_nodup : scaleFactors.Nodup := by with_unfolding_all decide

theorem mem_allCombinations (cfg : AllocConfig) (k : CombinationKey) :
    k ∈ allCombinations cfg ↔ ValidKey cfg k := by
  unfold allCombinations ValidKey
  simp only [List.mem_flatMap, List.mem_map]
  constructor
  · rintro ⟨a, ha, c, hc, hk⟩
    by_cases hac : a = c
    · simp [hac] at hk
    · rw [if_neg hac, List.mem_map] at hk
      obtain ⟨f, hf, rfl⟩ := hk
      exact ⟨ha, hc, hac, hf⟩
  · rintro ⟨h1, h2, h3, h4⟩
    refine ⟨k.1, h1, k.2.1, h2, ?_⟩
    rw [if_neg h3, List.mem_map]
    exact ⟨k.2.2, h4, rfl⟩

theorem mem_factorsBlock {a c : String} {fs : List ℚ} {k : CombinationKey}
    (hk : k ∈ if a = c then ([] : List CombinationKey)
      else fs.map fun f => (a, c, f)) :
    k.1 = a ∧ k.2.1 = c := by
  split at hk
  · cases hk
  · rw [List.mem_map] at hk
    obtain ⟨f, _, rfl⟩ := hk
    exact ⟨rfl, rfl⟩

theorem nodup_allCombinations (cfg : AllocConfig) (hs : cfg.shapes.Nodup)
    (hf : cfg.factors.Nodup) : (allCombinations cfg).Nodup := by
  unfold allCombinations
  rw [List.nodup_flatMap]
  constructor
  · intro a _
    rw [List.nodup_flatMap]
    constructor
    · intro c _
      split
      · exact List.nodup_nil
      · exact hf.map (fun f₁ f₂ h => by
          simpa using congrArg (fun k : CombinationKey => k.2.2) h)
    · refine hs.imp ?_
      intro c₁ c₂ hne k hk₁ hk₂
      exact hne ((mem_factorsBlock hk₁).2 ▸ (mem_factorsBlock hk₂).2 ▸ rfl)
  · refine hs.imp ?_
    intro a₁ a₂ hne k hk₁ hk₂
    rw [List.mem_flatMap] at hk₁ hk₂
    obtain ⟨c₁, _, hk₁⟩ := hk₁
    obtain ⟨c₂, _, hk₂⟩ := hk₂
    exact hne ((mem_factorsBlock hk₁).1 ▸ (mem_factorsBlock hk₂).1 ▸ rfl)

theorem length_flatMap_eq {α β : Type} (l : List α) (f : α → List β) :
    (l.flatMap f).length = (l.map fun a => (f a).length).sum := by
  induction l with
  | nil => rfl
  | cons a l ih => simp [List.flatMap_cons, ih]

theorem sum_if_notMem {α : Type} [DecidableEq α] (l : List α) (a : α) (F : ℕ)
    (ha : a ∉ l) :
    (l.map fun c => if a = c then 0 else F).sum = l.length * F := by
  induction l with
  | nil => simp
  | cons c l ih =>
    have hac : a ≠ c := fun h => ha (h ▸ List.mem_cons_self c l)
    have ha' : a ∉ l := fun h => ha (List.mem_cons_of_mem c h)
    simp only [List.map_cons, List.sum_cons, if_neg hac, ih ha', List.length_cons]
    rw [Nat.succ_mul, Nat.add_comm]

theorem sum_if_mem {α : Type} [DecidableEq α] (l : List α) (a : α) (F : ℕ)
    (hnd : l.Nodup) (ha : a ∈ l) :
    (l.map fun c => if a = c then 0 else F).sum = (l.length - 1) * F := by
  induction l with
  | nil => cases ha
  | cons c l ih =>
    rw [List.nodup_cons] at hnd
    by_cases hac : a = c
    · have ha' : a ∉ l := hac ▸ hnd.1
      simp only [List.map_cons, List.sum_cons, if_pos hac, sum_if_notMem l a F ha',
        List.length_cons, Nat.add_sub_cancel, Nat.zero_add]
    · have ha' : a ∈ l := (List.mem_cons.mp ha).resolve_left hac
      have hlen : 1 ≤ l.length := List.length_pos.mpr (List.ne_nil_of_mem ha')
      simp only [List.map_cons, List.sum_cons, if_neg hac, ih hnd.2 ha',
        List.length_cons, Nat.add_sub_cancel]
      obtain ⟨m, hm⟩ : ∃ m, l.length = m + 1 := ⟨l.length - 1, by omega⟩
      rw [hm]
      simp only [Nat.add_sub_cancel]
      rw [Nat.succ_mul, Nat.add_comm]

theorem length_allCombinations (cfg : AllocConfig) (hs : cfg.shapes.Nodup) :
    (allCombinations cfg).length = maxUniqueCombinations cfg := by
  unfold allCombinations maxUniqueCombinations
  rw [length_flatMap_eq]
  have hinner : ∀ a ∈ cfg.shapes,
      ((cfg.shapes.flatMap fun c =>
        if a = c then ([] : List CombinationKey)
        else cfg.factors.map fun f => (a, c, f)).length) =
      (cfg.shapes.length - 1) * cfg.factors.length := by
    intro a ha
    rw [length_flatMap_eq]
    have hmap : (cfg.shapes.map fun c =>
        (if a = c then ([] : List CombinationKey)
          else cfg.factors.map fun f => (a, c, f)).length) =
        cfg.shapes.map fun c => if a = c then 0 else cfg.factors.length := by
      apply List.map_congr_left
      intro c _
      split <;> simp
    rw [hmap, sum_if_mem cfg.shapes a cfg.factors.length hs ha]
  rw [List.map_congr_left hinner]
  rw [List.map_const', List.sum_replicate, smul_eq_mul, Nat.mul_assoc]

theorem allCombinations_default_nodup : (allCombinations defaultAlloc).Nodup :=
  nodup_allCombinations defaultAlloc baseShapes_nodup scaleFactors_nodup

theorem allCombinations_default_length :
    (allCombinations defaultAlloc).length = maxUniqueCombinations defaultAlloc :=
  length_allCombinations defaultAlloc baseShapes_nodup

theorem generateTaskData_fresh (cfg : AllocConfig)
    (hnd : (allCombinations cfg).Nodup)
    (hlen : (allCombinations cfg).length = maxUniqueCombinations cfg)
    (used : List CombinationKey) (o : DrawOracle)
    (h : used.length < maxUniqueCombinations cfg) :
    ∃ k, generateTaskData cfg used o = some (k, k :: used, 0) ∧ k ∉ used := by
  rw [generateTaskData, if_pos h]
  cases hr : randomPhase used o with
  | some k =>
    refine ⟨k, rfl, ?_⟩
    have hp := List.find?_some hr
    simpa using hp
  | none =>
    cases hsys : systematicUniqueCombination cfg used with
    | some k =>
      refine ⟨k, rfl, ?_⟩
      have hp := List.find?_some hsys
      simpa using hp
    | none =>
      exfalso
      rw [systematicUniqueCombination, List.find?_eq_none] at hsys
      have hsub : (allCombinations cfg).toFinset ⊆ used.toFinset := by
        intro k hk
        rw [List.mem_toFinset] at hk ⊢
        have := hsys k hk
        simpa using this
      have h2 : (allCombinations cfg).toFinset.card ≤ used.toFinset.card :=
        Finset.card_le_card hsub
      rw [List.toFinset_card_of_nodup hnd] at h2
      have h3 : used.toFinset.card ≤ used.length := List.toFinset_card_le used
      omega

theorem generateTaskData_exhausted (cfg : AllocConfig)
    (used : List CombinationKey) (o : DrawOracle)
    (h : used.length = maxUniqueCombinations cfg) :
    generateTaskData cfg used o = some (o.exhaustedDraw, used, 1) := by
  rw [generateTaskData, if_neg (by omega), if_pos h]

theorem runAllocator_fresh (cfg : AllocConfig)
    (hnd : (allCombinations cfg).Nodup)
    (hlen : (allCombinations cfg).length = maxUniqueCombinations cfg)
    (os : ℕ → DrawOracle) :
    ∀ n, n ≤ maxUniqueCombinations cfg →
      ∃ ks used, runAllocatorFrom cfg os [] n = some (ks, used, 0) ∧
        used = ks.reverse ∧ used.length = n ∧ used.Nodup := by
  intro n
  induction n with
  | zero => exact fun _ => ⟨[], [], rfl, rfl, rfl, List.nodup_nil⟩
  | succ n ih =>
    intro hn
    obtain ⟨ks, used, hrun, hrev, hlenu, hnodup⟩ := ih (Nat.le_of_succ_le hn)
    have hlt : used.length < maxUniqueCombinations cfg := by omega
    obtain ⟨k, hstep, hk⟩ := generateTaskData_fresh cfg hnd hlen used (os n) hlt
    refine ⟨ks ++ [k], k :: used, ?_, ?_, ?_, ?_⟩
    · simp only [runAllocatorFrom, hrun, hstep]
    · rw [List.reverse_append, hrev]
      rfl
    · simp [hlenu]
    · exact List.nodup_cons.mpr ⟨hk, hnodup⟩

theorem generateTaskData_some_cases (cfg : AllocConfig)
    (used : List CombinationKey) (o : DrawOracle)
    (k : CombinationKey) (used2 : List CombinationKey) (w2 : ℕ)
    (h : generateTaskData cfg used o = some (k, used2, w2)) :
    used2 = used ∨
      (used2 = k :: used ∧ k ∉ used ∧
        ((∃ i, k = o.attempts i) ∨ k ∈ allCombinations cfg)) := by
  rw [generateTaskData] at h
  split at h
  · cases hr : randomPhase used o with
    | some k' =>
      rw [hr] at h
      simp only [Option.some.injEq, Prod.mk.injEq] at h
      obtain ⟨h1, h2, h3⟩ := h
      subst h1
      have hmem := List.mem_of_find?_eq_some hr
      rw [List.mem_map] at hmem
      obtain ⟨i, _, hi⟩ := hmem
      have hp := List.find?_some hr
      exact Or.inr ⟨h2.symm, by simpa using hp, Or.inl ⟨i, hi.symm⟩⟩
    | none =>
      rw [hr] at h
      cases hsys : systematicUniqueCombination cfg used with
      | some k' =>
        rw [hsys] at h
        simp only [Option.some.injEq, Prod.mk.injEq] at h
        obtain ⟨h1, h2, h3⟩ := h
        subst h1
        have hmem := List.mem_of_find?_eq_some hsys
        have hp := List.find?_some hsys
        exact Or.inr ⟨h2.symm, by simpa using hp, Or.inr hmem⟩
      | none =>
        rw [hsys] at h
        cases h
  · simp only [Option.some.injEq, Prod.mk.injEq] at h
    exact Or.inl h.2.1.symm

theorem validKeys_length_le (used : List CombinationKey) (hnodup : used.Nodup)
    (hvalid : ∀ k ∈ used, ValidKey defaultAlloc k) :
    used.length ≤ maxUniqueCombinations defaultAlloc := by
  have hsub : used.toFinset ⊆ (allCombinations defaultAlloc).toFinset := by
    intro k hk
    rw [List.mem_toFinset] at hk ⊢
    exact (mem_allCombinations defaultAlloc k).mpr (hvalid k hk)
  calc used.length = used.toFinset.card := (List.toFinset_card_of_nodup hnodup).symm
    _ ≤ (allCombinations defaultAlloc).toFinset.card := Finset.card_le_card hsub
    _ = (allCombinations defaultAlloc).length :=
        List.toFinset_card_of_nodup allCombinations_default_nodup
    _ = maxUniqueCombinations defaultAlloc := allCombinations_default_length

theorem runAllocator_used_inv (os : ℕ → DrawOracle)
    (hos : ∀ n i, ValidKey defaultAlloc ((os n).attempts i)) :
    ∀ n ks used w, runAllocator defaultAlloc os n = some (ks, used, w) →
      used.Nodup ∧ ∀ k ∈ used, ValidKey defaultAlloc k := by
  intro n
  induction n with
  | zero =>
    intro ks used w h
    rw [runAllocator, runAllocatorFrom] at h
    simp only [Option.some.injEq, Prod.mk.injEq] at h
    rw [← h.2.1]
    exact ⟨List.nodup_nil, by simp⟩
  | succ n ih =>
    intro ks used w h
    rw [runAllocator, runAllocatorFrom] at h
    cases hrun : runAllocatorFrom defaultAlloc os [] n with
    | none => rw [hrun] at h; cases h
    | some r =>
      obtain ⟨ks', used', w'⟩ := r
      rw [hrun] at h
      dsimp only at h
      obtain ⟨hnd', hval'⟩ := ih ks' used' w' hrun
      cases hstep : generateTaskData defaultAlloc used' (os n) with
      | none => rw [hstep] at h; cases h
      | some r2 =>
        obtain ⟨k, used2, w2⟩ := r2
        rw [hstep] at h
        dsimp only at h
        simp only [Option.some.injEq, Prod.mk.injEq] at h
        rw [← h.2.1]
        rcases generateTaskData_some_cases defaultAlloc used' (os n) k used2 w2 hstep with
          heq | ⟨heq, hkn, hsrc⟩
        · rw [heq]; exact ⟨hnd', hval'⟩
        · rw [heq]
          refine ⟨List.nodup_cons.mpr ⟨hkn, hnd'⟩, ?_⟩
          intro k' hk'
          rcases List.mem_cons.mp hk' with rfl | hk'
          · rcases hsrc with ⟨i, hi⟩ | hmem
            · rw [hi]; exact hos n i
            · exact (mem_allCombinations defaultAlloc k').mp hmem
          · exact hval' k' hk'

theorem find?_eq_some_split {α : Type} (p : α → Bool) (l : List α) (a : α)
    (h : l.find? p = some a) :
    ∃ l₁ l₂, l = l₁ ++ a :: l₂ ∧ ∀ b ∈ l₁, p b = false := by
  induction l with
  | nil => cases h
  | cons x l ih =>
    by_cases hx : p x
    · rw [List.find?_cons_of_pos l hx] at h
      injection h with h
      subst h
      exact ⟨[], l, rfl, by simp⟩
    · rw [List.find?_cons_of_neg l hx] at h
      obtain ⟨l₁, l₂, rfl, hall⟩ := ih h
      refine ⟨x :: l₁, l₂, rfl, ?_⟩
      intro b hb
      rcases List.mem_cons.mp hb with rfl | hb
      · simpa using hx
      · exact hall b hb

theorem exists_unused_of_lt (cfg : AllocConfig)
    (hnd : (allCombinations cfg).Nodup)
    (hlen : (allCombinations cfg).length = maxUniqueCombinations cfg)
    (used : List CombinationKey)
    (h : used.length < maxUniqueCombinations cfg) :
    ∃ k ∈ allCombinations cfg, k ∉ used := by
  by_contra hcon
  push_neg at hcon
  have hsub : (allCombinations cfg).toFinset ⊆ used.toFinset := by
    intro k hk
    rw [List.mem_toFinset] at hk ⊢
    exact hcon k hk
  have h2 : (allCombinations cfg).toFinset.card ≤ used.toFinset.card :=
    Finset.card_le_card hsub
  rw [List.toFinset_card_of_nodup hnd] at h2
  have h3 : used.toFinset.card ≤ used.length := List.toFinset_card_le used
  omega

/-- C1: for every `N ≤ M` successive `_generate_task_data` calls on a fresh
`TaskGenerator` (with `M = |shapes|·(|shapes|−1)·|scale_factors|`), and for
every choice of random draws, no call raises, no notice is printed, and
the `N` returned combination keys are pairwise distinct. -/
theorem allocator_draws_pairwise_distinct (N : ℕ)
    (hN : N ≤ maxUniqueCombinations defaultAlloc) (os : ℕ → DrawOracle) :
    ∃ ks used, runAllocator defaultAlloc os N = some (ks, used, 0) ∧ ks.Nodup := by
  obtain ⟨ks, used, h1, h2, h3, h4⟩ :=
    runAllocator_fresh defaultAlloc allCombinations_default_nodup
      allCombinations_default_length os N hN
  refine ⟨ks, used, h1, ?_⟩
  rw [h2] at h4
  exact List.nodup_reverse.mp h4

theorem allocator_draws_pairwise_distinct_witness :
    2 ≤ maxUniqueCombinations defaultAlloc ∧
      ∃ ks used, runAllocator defaultAlloc (fun _ => sampleOracle) 2 =
        some (ks, used, 0) ∧ ks.Nodup :=
  ⟨by decide, allocator_draws_pairwise_distinct 2 (by decide) (fun _ => sampleOracle)⟩

/-- C9: the systematic fallback returns the first key, in the defined
`shape_a`/`shape_c`/`scale_factor` enumeration order, that is not in the
used set; it succeeds whenever `|used| < M`, and it raises exactly when
every enumerable key is already used. -/
theorem systematic_fallback_correct (used : List CombinationKey) :
    (used.length < maxUniqueCombinations defaultAlloc →
      ∃ k, systematicUniqueCombination defaultAlloc used = some k ∧
        k ∉ used ∧ k ∈ allCombinations defaultAlloc) ∧
    (∀ k, systematicUniqueCombination defaultAlloc used = some k →
      ∃ l₁ l₂, allCombinations defaultAlloc = l₁ ++ k :: l₂ ∧ ∀ p ∈ l₁, p ∈ used) ∧
    (systematicUniqueCombination defaultAlloc used = none ↔
      ∀ k ∈ allCombinations defaultAlloc, k ∈ used) := by
  refine ⟨?_, ?_, ?_⟩
  · intro h
    cases hsys : systematicUniqueCombination defaultAlloc used with
    | some k =>
      exact ⟨k, rfl, by simpa using List.find?_some hsys,
        List.mem_of_find?_eq_some hsys⟩
    | none =>
      exfalso
      rw [systematicUniqueCombination, List.find?_eq_none] at hsys
      obtain ⟨k, hkmem, hknot⟩ := exists_unused_of_lt defaultAlloc
        allCombinations_default_nodup allCombinations_default_length used h
      exact hknot (by simpa using hsys k hkmem)
  · intro k hk
    rw [systematicUniqueCombination] at hk
    obtain ⟨l₁, l₂, heq, hall⟩ := find?_eq_some_split _ _ _ hk
    refine ⟨l₁, l₂, heq, fun p hp => ?_⟩
    simpa using hall p hp
  · rw [systematicUniqueCombination, List.find?_eq_none]
    constructor
    · intro h k hk
      simpa using h k hk
    · intro h k hk
      simpa using h k hk

theorem systematic_fallback_correct_witness :
    ∃ k, systematicUniqueCombination defaultAlloc [] = some k ∧
      k ∉ ([] : List CombinationKey) ∧ k ∈ allCombinations defaultAlloc :=
  (systematic_fallback_correct []).1 (by decide)

/-- C4 counterexample: from the exhausted state (all `M` keys used), two
further `_generate_task_data` calls print the exhaustion notice twice —
once per call — not exactly once across the calls. -/
theorem exhaustion_notice_not_once :
    noticeCount (runAllocatorFrom defaultAlloc (fun _ => sampleOracle)
      (allCombinations defaultAlloc) 2) = 2 ∧ (2 : ℕ) ≠ 1 := by
  constructor
  · have h1 := generateTaskData_exhausted defaultAlloc (allCombinations defaultAlloc)
      sampleOracle allCombinations_default_length
    simp only [runAllocatorFrom, h1]
    rfl
  · decide

/-- C4 (amended): once the used-key set has size `M`, every further
`_generate_task_data` call never raises, returns the raw random draw with
no uniqueness check (repeats allowed), leaves the used set unchanged, and
prints the exhaustion notice on each such call (not just once). -/
theorem exhausted_calls_replacement (used : List CombinationKey) (o : DrawOracle)
    (h : used.length = maxUniqueCombinations defaultAlloc) :
    generateTaskData defaultAlloc used o = some (o.exhaustedDraw, used, 1) :=
  generateTaskData_exhausted defaultAlloc used o h

theorem exhausted_calls_replacement_witness :
    generateTaskData defaultAlloc (allCombinations defaultAlloc) sampleOracle =
      some (sampleOracle.exhaustedDraw, allCombinations defaultAlloc, 1) :=
  exhausted_calls_replacement (allCombinations defaultAlloc) sampleOracle
    allCombinations_default_length

/-- C10: along any run of `_generate_task_data` calls whose random draws
are producible by `random.sample`/`random.choice`, every key stored in
`generated_combinations` has `shape_a ≠ shape_c` with both shapes from the
configured list and the factor from the configured list, the set's size
never exceeds `M`, and once the size equals `M` no call changes the set. -/
theorem allocator_state_invariant (os : ℕ → DrawOracle)
    (hos : ∀ n i, ValidKey defaultAlloc ((os n).attempts i)) (n : ℕ) :
    (∀ ks used w, runAllocator defaultAlloc os n = some (ks, used, w) →
      (∀ k ∈ used, ValidKey defaultAlloc k) ∧
        used.length ≤ maxUniqueCombinations defaultAlloc) ∧
    (∀ used o, used.length = maxUniqueCombinations defaultAlloc →
      ∀ k used2 w2, generateTaskData defaultAlloc used o = some (k, used2, w2) →
        used2 = used) := by
  constructor
  · intro ks used w h
    obtain ⟨hnd, hval⟩ := runAllocator_used_inv os hos n ks used w h
    exact ⟨hval, validKeys_length_le used hnd hval⟩
  · intro used o h k used2 w2 hstep
    rw [generateTaskData_exhausted defaultAlloc used o h] at hstep
    simp only [Option.some.injEq, Prod.mk.injEq] at hstep
    exact hstep.2.1.symm

theorem allocator_state_invariant_witness :
    (∀ ks used w, runAllocator defaultAlloc (fun _ => sampleOracle) 1 =
        some (ks, used, w) →
      (∀ k ∈ used, ValidKey defaultAlloc k) ∧
        used.length ≤ maxUniqueCombinations defaultAlloc) ∧
    (∀ used o, used.length = maxUniqueCombinations defaultAlloc →
      ∀ k used2 w2, generateTaskData defaultAlloc used o = some (k, used2, w2) →
        used2 = used) :=
  allocator_state_invariant (fun _ => sampleOracle)
    (fun _ _ =>
      show ValidKey defaultAlloc ("square", "triangle", (2 : ℚ)) by
        with_unfolding_all decide) 1

/-- C6: `_get_max_shape_size_for_position(x, y)` equals twice
`max(min(x−margin, width−x−margin, y−margin, height−y−margin) − 10, 20)`,
and at the default canvas (512,512) with margin 40 the four distances from
(256,128) are 216, 216, 88, 344 and the result is (88−10)·2 = 156. -/
theorem max_size_formula_and_scenario :
    (∀ (cfg : RenderConfig) (x y : ℤ),
      maxShapeSizeForPosition cfg x y =
        2 * max (min (min (x - cfg.margin) (cfg.width - x - cfg.margin))
          (min (y - cfg.margin) (cfg.height - y - cfg.margin)) - 10) 20) ∧
    maxShapeSizeForPosition defaultRenderConfig 256 128 = 156 ∧
    256 - defaultRenderConfig.margin = 216 ∧
    defaultRenderConfig.width - 256 - defaultRenderConfig.margin = 216 ∧
    128 - defaultRenderConfig.margin = 88 ∧
    defaultRenderConfig.height - 128 - defaultRenderConfig.margin = 344 := by
  refine ⟨fun cfg x y => ?_, by decide, by decide, by decide, by decide, by decide⟩
  rw [maxShapeSizeForPosition_eq]
  simp only [minEdgeDistance]
  exact mul_comm _ _

/-- C8: the bounds calculator always returns at least 40 (twice the
20-unit radius floor), and its result is monotonically non-increasing as
the anchor's minimum distance to the four margined canvas edges
decreases. -/
theorem max_size_floor_and_monotone :
    (∀ (cfg : RenderConfig) (x y : ℤ), 40 ≤ maxShapeSizeForPosition cfg x y) ∧
    (∀ (cfg : RenderConfig) (x₁ y₁ x₂ y₂ : ℤ),
      minEdgeDistance cfg x₁ y₁ ≤ minEdgeDistance cfg x₂ y₂ →
        maxShapeSizeForPosition cfg x₁ y₁ ≤ maxShapeSizeForPosition cfg x₂ y₂) := by
  constructor
  · intro cfg x y
    rw [maxShapeSizeForPosition_eq]
    have h : (20 : ℤ) ≤ max (minEdgeDistance cfg x y - 10) 20 := le_max_right _ _
    omega
  · intro cfg x₁ y₁ x₂ y₂ h
    rw [maxShapeSizeForPosition_eq, maxShapeSizeForPosition_eq]
    have hm : max (minEdgeDistance cfg x₁ y₁ - 10) 20 ≤
        max (minEdgeDistance cfg x₂ y₂ - 10) 20 :=
      max_le_max (by omega) le_rfl
    omega

theorem max_size_floor_and_monotone_witness :
    minEdgeDistance defaultRenderConfig 256 128 ≤
      minEdgeDistance defaultRenderConfig 256 256 ∧
    maxShapeSizeForPosition defaultRenderConfig 256 128 ≤
      maxShapeSizeForPosition defaultRenderConfig 256 256 :=
  ⟨by decide,
    max_size_floor_and_monotone.2 defaultRenderConfig 256 128 256 256 (by decide)⟩

/-- C7: for every `hold_frames = h` and `scale_frames = s` the animator's
frame list is `h` copies of the initial layout, then `s` morph frames,
then `h` copies of the final layout, `2h + s` frames in total. -/
theorem transformation_frames_structure (cfg : RenderConfig) (c : String)
    (sf : ℚ) (h s : ℕ) :
    transformationFrames cfg c sf h s =
      List.replicate h Frame.firstImage ++ scalingMorphFrames cfg c sf s ++
        List.replicate h Frame.finalImage ∧
    (scalingMorphFrames cfg c sf s).length = s ∧
    (transformationFrames cfg c sf h s).length = 2 * h + s := by
  refine ⟨rfl, ?_, ?_⟩
  · rw [scalingMorphFrames, List.length_map, List.length_range]
  · rw [transformationFrames]
    simp only [List.length_append, List.length_replicate, scalingMorphFrames,
      List.length_map, List.length_range]
    omega

theorem morphCurrentSize_zero (cfg : RenderConfig) (sf : ℚ) (s : ℕ) (h : 2 ≤ s) :
    morphCurrentSize cfg sf s 0 = cfg.shapeSize := by
  rw [morphCurrentSize, scaleProgress, if_pos (by omega : 1 < s)]
  simp only [Nat.cast_zero, zero_div, mul_zero, add_zero]
  exact pyInt_intCast _

theorem morphCurrentSize_last (cfg : RenderConfig) (sf : ℚ) (s : ℕ) (h : 1 ≤ s) :
    morphCurrentSize cfg sf s (s - 1) = scalingTargetSize cfg sf := by
  rw [morphCurrentSize, scaleProgress]
  by_cases h1 : 1 < s
  · rw [if_pos h1]
    have hs : ((s - 1 : ℕ) : ℚ) = (s : ℚ) - 1 := by
      push_cast [Nat.cast_sub h]
      ring
    have hne : (s : ℚ) - 1 ≠ 0 := by
      have : (1 : ℚ) < (s : ℚ) := by exact_mod_cast h1
      intro hc
      rw [sub_eq_zero] at hc
      exact absurd hc.symm (ne_of_lt this)
    rw [hs, div_self hne, mul_one]
    have harith : (cfg.shapeSize : ℚ) +
        (((scalingTargetSize cfg sf : ℤ) : ℚ) - (cfg.shapeSize : ℚ)) =
        ((scalingTargetSize cfg sf : ℤ) : ℚ) := by ring
    rw [harith]
    exact pyInt_intCast _
  · rw [if_neg h1, mul_one]
    have harith : (cfg.shapeSize : ℚ) +
        (((scalingTargetSize cfg sf : ℤ) : ℚ) - (cfg.shapeSize : ℚ)) =
        ((scalingTargetSize cfg sf : ℤ) : ℚ) := by ring
    rw [harith]
    exact pyInt_intCast _

/-- C2 (amended): every morph frame `i` of `s` renders the answer shape at
`current_size = int(original_size + (target_size − original_size)·i/(s−1))`
— Python `int()` truncation, not `round` — with the interpolation factor
1.0 when `s = 1`, and `target_size = int(shape_size·scale_factor)` —
truncation again — clamped above by
`max_size_for_position(answer_x, answer_y)`; for `s ≥ 2` the first morph
frame renders at `original_size`, and for `s ≥ 1` the last renders at the
post-clamp `target_size`. -/
theorem morph_frame_sizes (cfg : RenderConfig) (c : String) (sf : ℚ) (s i : ℕ) :
    (i < s →
      (scalingMorphFrames cfg c sf s)[i]? =
        some (Frame.morphFrame c (answerX cfg) (answerY cfg)
          (pyInt ((cfg.shapeSize : ℚ) +
            (((scalingTargetSize cfg sf : ℤ) : ℚ) - (cfg.shapeSize : ℚ)) *
              (if 1 < s then (i : ℚ) / ((s : ℚ) - 1) else 1))))) ∧
    scalingTargetSize cfg sf =
      min (pyInt ((cfg.shapeSize : ℚ) * sf))
        (maxShapeSizeForPosition cfg (answerX cfg) (answerY cfg)) ∧
    (2 ≤ s →
      (scalingMorphFrames cfg c sf s)[0]? =
        some (Frame.morphFrame c (answerX cfg) (answerY cfg) cfg.shapeSize)) ∧
    (1 ≤ s →
      (scalingMorphFrames cfg c sf s)[s - 1]? =
        some (Frame.morphFrame c (answerX cfg) (answerY cfg)
          (scalingTargetSize cfg sf))) := by
  refine ⟨?_, rfl, ?_, ?_⟩
  · intro hi
    simp only [scalingMorphFrames, List.getElem?_map, List.getElem?_range, hi]
    rfl
  · intro hs
    simp only [scalingMorphFrames, List.getElem?_map,
      List.getElem?_range (by omega : 0 < s), Option.map_some']
    rw [morphCurrentSize_zero cfg sf s hs]
  · intro hs
    simp only [scalingMorphFrames, List.getElem?_map,
      List.getElem?_range (by omega : s - 1 < s), Option.map_some']
    rw [morphCurrentSize_last cfg sf s hs]

theorem morph_frame_sizes_witness :
    (7 < 30 ∧ (scalingMorphFrames defaultRenderConfig "square" 2 30)[7]? =
      some (Frame.morphFrame "square" 432 384 75)) ∧
    (1 ≤ 30 ∧ (scalingMorphFrames defaultRenderConfig "square" 2 30)[29]? =
      some (Frame.morphFrame "square" 432 384 60)) := by
  constructor
  · refine ⟨by decide, ?_⟩
    have h := (morph_frame_sizes defaultRenderConfig "square" 2 30 7).1 (by decide)
    rw [h]
    with_unfolding_all rfl
  · refine ⟨by decide, ?_⟩
    have h := (morph_frame_sizes defaultRenderConfig "square" 2 30 0).2.2.2 (by decide)
    rw [h]
    with_unfolding_all rfl

/-- C2 counterexample: at the default configuration with scale factor 2.0
and 30 morph frames (target size 60 after clamping), the code's `int()`
truncation renders frame 2 at size 78, while the claimed `round(...)`
formula gives 79. -/
theorem morph_size_truncates_not_rounds :
    morphCurrentSize defaultRenderConfig 2 30 2 = 78 ∧
    morphCurrentSizeSpec defaultRenderConfig 2 30 2 = 79 ∧
    scalingTargetSize defaultRenderConfig 2 = 60 ∧
    (scalingMorphFrames defaultRenderConfig "square" 2 30)[2]? =
      some (Frame.morphFrame "square" 432 384 78) := by
  refine ⟨by with_unfolding_all rfl, by with_unfolding_all rfl,
    by with_unfolding_all rfl, by with_unfolding_all rfl⟩

/-- C3 counterexample: the hexagon's vertex fan starts at angle 0 (first
vertex at `(x + h, y)`, to the right of center), not at −π/2 (top) as
claimed; only the pentagon carries the −π/2 offset. -/
theorem hexagon_starts_at_zero_not_top :
    hexagonVertexAngle 0 = 0 ∧ hexagonVertexAngle 0 ≠ -(Real.pi / 2) ∧
    polygonVertex 0 0 1 (hexagonVertexAngle 0) = (1, 0) ∧
    polygonVertex 0 0 1 (-(Real.pi / 2)) = (0, -1) := by
  have h0 : hexagonVertexAngle 0 = 0 := by simp [hexagonVertexAngle]
  refine ⟨h0, ?_, ?_, ?_⟩
  · rw [h0]
    intro hc
    have hπ := Real.pi_pos
    have : Real.pi / 2 > 0 := by linarith
    linarith [hc.symm ▸ this]
  · rw [h0]
    simp [polygonVertex]
  · simp [polygonVertex, Real.cos_neg, Real.sin_neg, Real.cos_pi_div_two,
      Real.sin_pi_div_two]

/-- C3 (amended): pentagon, hexagon and octagon vertices all lie at
`h·(cos θ_i, sin θ_i)` around the center, with angles equally spaced by
`2π/n`; the pentagon starts its fan at −π/2 (top) while hexagon and
octagon both start at angle 0. -/
theorem polygon_vertex_fans (x y h : ℝ) (i : ℕ) :
    pentagonPoints x y h = (List.range 5).map
      (fun j => (x + h * Real.cos (pentagonVertexAngle j),
        y + h * Real.sin (pentagonVertexAngle j))) ∧
    hexagonPoints x y h = (List.range 6).map
      (fun j => (x + h * Real.cos (hexagonVertexAngle j),
        y + h * Real.sin (hexagonVertexAngle j))) ∧
    octagonPoints x y h = (List.range 8).map
      (fun j => (x + h * Real.cos (octagonVertexAngle j),
        y + h * Real.sin (octagonVertexAngle j))) ∧
    pentagonVertexAngle (i + 1) - pentagonVertexAngle i = 2 * Real.pi / 5 ∧
    hexagonVertexAngle (i + 1) - hexagonVertexAngle i = 2 * Real.pi / 6 ∧
    octagonVertexAngle (i + 1) - octagonVertexAngle i = 2 * Real.pi / 8 ∧
    pentagonVertexAngle 0 = -(Real.pi / 2) ∧
    hexagonVertexAngle 0 = 0 ∧ octagonVertexAngle 0 = 0 := by
  refine ⟨rfl, rfl, rfl, ?_, ?_, ?_, ?_, ?_, ?_⟩
  · unfold pentagonVertexAngle
    push_cast
    ring
  · unfold hexagonVertexAngle
    push_cast
    ring
  · unfold octagonVertexAngle
    push_cast
    ring
  · simp [pentagonVertexAngle]
  · simp [hexagonVertexAngle]
  · simp [octagonVertexAngle]

/-- C5: the `TaskPair` construction in `generate_task_pair` fails —
`core/schemas.py` declares no `ground_truth_video` field, and the
required `metadata` field is not among the passed keywords, so pydantic
validation raises instead of succeeding as the claim states. -/
theorem taskPair_construction_fails :
    taskPairConstructionOk generateTaskPairKwargs = false ∧
    "ground_truth_video" ∉ taskPairFields.map Prod.fst ∧
    ("metadata", false) ∈ taskPairFields ∧
    "metadata" ∉ generateTaskPairKwargs := by
  refine ⟨by decide, by decide, by decide, by decide⟩
